import Mathlib

set_option autoImplicit false

/-!
Shallow embedding of the repository profiler and risk-assessment pipeline of
`src/streamlit_app.py` (an EU AI Act risk-analyzer app).  Pure string and list
manipulation from the source is translated directly; the two remote services
(source-control API, generation service) are modelled as explicit inputs.
All definitions are executable so that concrete runs can be checked by
`decide` / `rfl`.
-/

/-- Python `needle` prefix test on char lists: does `hay` start with `needle`? -/
def prefixMatch : List Char → List Char → Bool
  | [], _ => true
  | _ :: _, [] => false
  | a :: as, b :: bs => a == b && prefixMatch as bs

/-- Python substring test on char lists: is `n` a contiguous infix of the second list? -/
def subList (n : List Char) : List Char → Bool
  | [] => prefixMatch n []
  | c :: t => prefixMatch n (c :: t) || subList n t

/-- Python `needle in hay` on strings (substring containment), as used on the
lower-cased README+requirements blob at lines 74, 77, 78 of the source. -/
def containsSub (hay needle : String) : Bool :=
  subList needle.toList hay.toList

/-- Python `str.lower()`, restricted to the ASCII case mapping (every keyword the
source searches for is ASCII). -/
def lowerStr (s : String) : String :=
  String.mk (s.toList.map Char.toLower)

/-- Python `str.endswith(suffix)`. -/
def pyEndsWith (s suffix : String) : Bool :=
  prefixMatch suffix.toList.reverse s.toList.reverse

/-- Python `sep.join(xs)` for a string separator. -/
def pyJoin (sep : String) : List String → String
  | [] => ""
  | [s] => s
  | s :: s2 :: rest => s ++ sep ++ pyJoin sep (s2 :: rest)

/-- Helper for `pySplitlines`: walk the characters, `acc` holds the current
line reversed, `afterCR` records that the previous character was a `\r` whose
line was already emitted (so an immediately following `\n` is part of the same
`\r\n` terminator and is swallowed).  A final line is emitted only if
nonempty, matching Python `str.splitlines()`. -/
def pySplitlinesGo : Bool → List Char → List Char → List String
  | _, [], acc => if acc = [] then [] else [String.mk acc.reverse]
  | afterCR, c :: rest, acc =>
    if afterCR = true ∧ c = '\n' then pySplitlinesGo false rest acc
    else if c = '\n' then String.mk acc.reverse :: pySplitlinesGo false rest []
    else if c = '\r' then String.mk acc.reverse :: pySplitlinesGo true rest []
    else pySplitlinesGo false rest (c :: acc)

/-- Python `str.splitlines()` for the terminators `\n`, `\r` and `\r\n`, as
applied to the decoded `requirements.txt` content at line 53 of the source
(Python also treats a few rarer control characters as line breaks; they are
outside this model). -/
def pySplitlines (s : String) : List String :=
  pySplitlinesGo false s.toList []

/-- Python `str.split(sep)` for a single-character separator: every occurrence
of `sep` separates fields, empty fields are kept, `"".split(sep) == [""]`. -/
def pySplitChar (sep : Char) : List Char → List (List Char)
  | [] => [[]]
  | c :: cs =>
    if c == sep then [] :: pySplitChar sep cs
    else
      match pySplitChar sep cs with
      | [] => [[c]]
      | p :: ps => (c :: p) :: ps

/-- Characters allowed after the first character of a URL scheme
(`urllib.parse.scheme_chars`). -/
def schemeChar (c : Char) : Bool :=
  c.isAlphanum || c == '+' || c == '-' || c == '.'

/-- Split a char list at the first occurrence of `sep`; `none` if absent. -/
def splitOnFirst (sep : Char) : List Char → Option (List Char × List Char)
  | [] => none
  | c :: cs =>
    if c == sep then some ([], cs)
    else (splitOnFirst sep cs).map (fun p => (c :: p.1, p.2))

/-- Scheme removal of `urllib.parse.urlsplit`: if the text before the first `:`
is a nonempty ASCII-alpha-led run of scheme characters, drop `scheme:`. -/
def dropScheme (cs : List Char) : List Char :=
  match splitOnFirst ':' cs with
  | none => cs
  | some (before, after) =>
    match before with
    | [] => cs
    | c :: rest => if c.isAlpha && rest.all schemeChar then after else cs

/-- Netloc removal of `urllib.parse.urlsplit`: after a leading `//`, the network
location extends to the first `/`, `?` or `#`, which stays in the remainder. -/
def dropNetloc (cs : List Char) : List Char :=
  match cs with
  | '/' :: '/' :: rest => rest.dropWhile (fun c => !(c == '/' || c == '?' || c == '#'))
  | _ => cs

/-- Truncate a char list at the first occurrence of `sep` (used to strip the
fragment at `#` and the query at `?`). -/
def cutAtChar (sep : Char) (cs : List Char) : List Char :=
  match splitOnFirst sep cs with
  | none => cs
  | some (before, _) => before

/-- Split a char list around its last `/`: the first component keeps the
trailing `/`, the second is the final segment. -/
def splitLastSegment : List Char → List Char × List Char
  | [] => ([], [])
  | c :: cs =>
    if cs.contains '/' then
      let p := splitLastSegment cs
      (c :: p.1, p.2)
    else if c == '/' then (['/'], cs)
    else ([], c :: cs)

/-- Parameter removal of `urllib.parse.urlparse`: drop `;params` from the last
path segment (from the whole path when it has no `/`). -/
def splitParamsPath (cs : List Char) : List Char :=
  if cs.contains '/' then
    let p := splitLastSegment cs
    p.1 ++ cutAtChar ';' p.2
  else cutAtChar ';' cs

/-- The `.path` component of Python `urllib.parse.urlparse(url)`: strip scheme,
network location, fragment, query and parameters, in that order. -/
def urlparsePath (url : String) : String :=
  String.mk (splitParamsPath (cutAtChar '?' (cutAtChar '#' (dropNetloc (dropScheme url.toList)))))

/-- Line 42 of the source: `urlparse(github_url).path.lstrip("/")`. -/
def strippedPath (url : String) : String :=
  String.mk ((urlparsePath url).toList.dropWhile (fun c => c == '/'))

/-- Line 43 of the source: `path.split("/")` on the stripped path. -/
def pathParts (url : String) : List String :=
  (pySplitChar '/' (strippedPath url).toList).map String.mk

/-- Profiler failures: the spec's `InvalidRepositoryReference` is the
`ValueError` raised by the two-element unpack at line 43 when the path has
fewer than two segments; `RepositoryNotFound` is a failing `get_repo` call. -/
inductive ProfileError where
  | invalidRepositoryReference
  | repositoryNotFound
deriving DecidableEq, Repr

/-- Line 43 of the source: `owner, name = path.split("/")[:2]`; the unpack
raises when the split yields fewer than two parts. -/
def ownerName (url : String) : Except ProfileError (String × String) :=
  match pathParts url with
  | a :: b :: _ => Except.ok (a, b)
  | _ => Except.error ProfileError.invalidRepositoryReference

/-- Model of the source-control repository object consumed by
`extract_metadata` (lines 47-84).  Operations the code wraps in `try/except`
are modelled as `Except Unit`; `get_license()` is used by the code as an
optional value (line 60), so it is an `Option`. -/
structure RepoData where
  readme : Except Unit String := Except.error ()
  requirementsTxt : Except Unit String := Except.error ()
  languages : List (String × Nat) := []
  topics : List String := []
  license : Option String := none
  stars : Nat := 0
  forks : Nat := 0
  open_issues : Nat := 0
  pushed_at : String := ""
  size : Nat := 0
  workflows : Except Unit Unit := Except.error ()
  rootContents : Except Unit (List String) := Except.error ()
  contributors : Nat := 0
deriving Repr

/-- The metadata dictionary returned by `extract_metadata` (lines 89-108). -/
structure Metadata where
  readme_summary : String
  requirements : List String
  languages : List (String × Nat)
  topics : List String
  license : String
  stars : Nat
  forks : Nat
  open_issues : Nat
  last_push : String
  size_kb : Nat
  has_ci : Bool
  contributors : Nat
  domain : String
  tags : List String
  biometric_data : Bool
  human_in_loop : Bool
  pia_present : Bool
  doc_coverage : String
deriving DecidableEq, Repr

/-- Lines 47-50: README fetch, defaulting to the empty string on error. -/
def readmeOf (r : RepoData) : String :=
  match r.readme with
  | Except.ok s => s
  | Except.error _ => ""

/-- Lines 51-55: `requirements.txt` fetch and `splitlines`, defaulting to the
empty list on error. -/
def reqsOf (r : RepoData) : List String :=
  match r.requirementsTxt with
  | Except.ok s => pySplitlines s
  | Except.error _ => []

/-- Line 60: license identifier, with the `"NONE"` sentinel when absent. -/
def licenseOf (r : RepoData) : String :=
  match r.license with
  | some l => l
  | none => "NONE"

/-- Lines 66-70: CI flag from the existence probe of `.github/workflows`. -/
def hasCiOf (r : RepoData) : Bool :=
  match r.workflows with
  | Except.ok _ => true
  | Except.error _ => false

/-- Line 73: `blob = (readme + "\n" + "\n".join(reqs)).lower()`. -/
def blobOf (r : RepoData) : String :=
  lowerStr (readmeOf r ++ "\n" ++ pyJoin "\n" (reqsOf r))

/-- Line 74: the fixed keyword vocabulary checked against the blob. -/
def keywordVocab : List String :=
  ["finance", "health", "education", "surveillance"]

/-- Line 74: `tags = [kw for kw in [...] if kw in blob]`. -/
def tagsOf (blob : String) : List String :=
  keywordVocab.filter (fun kw => containsSub blob kw)

/-- Lines 80-84: Privacy Impact Assessment file probe over the root listing. -/
def piaOf (r : RepoData) : Bool :=
  match r.rootContents with
  | Except.ok files =>
    files.any (fun f => pyEndsWith (lowerStr f) "pia.md" || pyEndsWith (lowerStr f) "privacy_impact_assessment.md")
  | Except.error _ => false

/-- Line 86: `readme[:5000]` plus an ellipsis when the README is longer. -/
def readmeSummaryOf (readme : String) : String :=
  String.mk (readme.toList.take 5000) ++ (if readme.toList.length > 5000 then "…" else "")

/-- Lines 57-108: the metadata dictionary built from a successfully looked-up
repository. -/
def metadataOf (repo : RepoData) : Metadata :=
  let readme := readmeOf repo
  let reqs := reqsOf repo
  let blob := blobOf repo
  let tags := tagsOf blob
  { readme_summary := readmeSummaryOf readme
    requirements := reqs
    languages := repo.languages
    topics := repo.topics
    license := licenseOf repo
    stars := repo.stars
    forks := repo.forks
    open_issues := repo.open_issues
    last_push := repo.pushed_at
    size_kb := repo.size
    has_ci := hasCiOf repo
    contributors := repo.contributors
    domain := match tags with
      | [] => "General"
      | t :: _ => t
    tags := tags
    biometric_data := containsSub blob "biometric"
    human_in_loop := containsSub blob "human-in-the-loop"
    pia_present := piaOf repo
    doc_coverage := if (readmeSummaryOf readme).toList.length > 1000 then "Good" else "Limited" }

/-- Lines 39-108: `extract_metadata`, with the source-control lookup `gh`
passed in as a function from `owner/name` to repository data.  Only the
top-level `get_repo` lookup (line 44) is fatal. -/
def extract_metadata (gh : String → Except Unit RepoData) (github_url : String) :
    Except ProfileError Metadata := do
  let pair ← ownerName github_url
  match gh (pair.1 ++ "/" ++ pair.2) with
  | Except.ok r => Except.ok (metadataOf r)
  | Except.error _ => Except.error ProfileError.repositoryNotFound

/-- Line 166 of the source, the languages part of the document sent to the
generation service: `', '.join(f'{lang} ({pct:.0f}%)' for lang, pct in
metadata['languages'].items())`.  The iterated values are the raw byte counts
of the language histogram (integers, which `:.0f` prints exactly). -/
def languagesLine (languages : List (String × Nat)) : String :=
  pyJoin ", " (languages.map (fun lp => lp.1 ++ " (" ++ toString lp.2 ++ "%)"))

/-- Failure raised by the run-status check: lines 188-190 report any
non-completed status through the single generic error path. -/
inductive RunFailure where
  | serviceError (status : String)
deriving DecidableEq, Repr

/-- Lines 188-190 of the source: after `create_and_poll` returns, a run whose
status is not `"completed"` aborts the pipeline with a generic error carrying
the raw status string. -/
def handleRunStatus (status : String) : Except RunFailure Unit :=
  if status = "completed" then Except.ok ()
  else Except.error (RunFailure.serviceError status)

/-- A message annotation as consumed by the loop at lines 206-214: its type
tag and the literal marker text. -/
structure MsgAnn where
  annType : String
  text : String
deriving DecidableEq, Repr

/-- A retrieved evidence chunk (`file_search.results[i]`): the texts of its
content parts, of which the code reads `content[0].text` (line 209). -/
structure Chunk where
  content : List String
deriving DecidableEq, Repr

/-- A displayed citation: the marker's literal text and the cited chunk text. -/
structure CitationRecord where
  marker : String
  evidenceText : String
deriving DecidableEq, Repr

/-- The exceptions the annotation loop can raise: `AttributeError` from
`re.match(...).group(1)` on a non-matching marker (line 208), `IndexError`
from `results[idx]` (line 209), and `IndexError` from `content[0]` on an
empty content list (line 209). -/
inductive CiteError where
  | markerParse
  | indexRange
  | emptyContent
deriving DecidableEq, Repr

/-- Take the maximal leading run of ASCII digits. -/
def takeDigits : List Char → List Char × List Char
  | [] => ([], [])
  | c :: cs =>
    if c.isDigit then
      let p := takeDigits cs
      (c :: p.1, p.2)
    else ([], c :: cs)

/-- Numeric value of a digit run, as Python `int` reads it. -/
def digitsToNat (ds : List Char) : Nat :=
  ds.foldl (fun n c => n * 10 + (c.toNat - 48)) 0

/-- Line 208 of the source: `re.match(r"【\d+:(\d+)†source】", ann.text)`
followed by `int(.group(1))`.  `re.match` anchors at the start only, so
trailing text after `】` is accepted; `none` models a failed match. -/
def parseMarker (s : String) : Option Nat :=
  match s.toList with
  | '【' :: rest =>
    let p1 := takeDigits rest
    if p1.1.isEmpty then none
    else
      match p1.2 with
      | ':' :: r2 =>
        let p2 := takeDigits r2
        if p2.1.isEmpty then none
        else if prefixMatch "†source】".toList p2.2 then some (digitsToNat p2.1)
        else none
      | _ => none
  | _ => none

/-- Lines 205-214 of the source: iterate the annotations with the `shown` set
(modelled as the list of already-shown marker texts); a `file_citation`
annotation is parsed and its chunk fetched unconditionally, and it is
displayed only when its marker text has not been shown yet. -/
def processAnns (results : List Chunk) :
    List MsgAnn → List String → Except CiteError (List CitationRecord)
  | [], _ => Except.ok []
  | a :: rest, shown =>
    if a.annType = "file_citation" then
      match parseMarker a.text with
      | none => Except.error CiteError.markerParse
      | some idx =>
        match results[idx]? with
        | none => Except.error CiteError.indexRange
        | some chunk =>
          match chunk.content.head? with
          | none => Except.error CiteError.emptyContent
          | some txt =>
            if a.text ∈ shown then processAnns results rest shown
            else
              (processAnns results rest (a.text :: shown)).map
                (fun l => { marker := a.text, evidenceText := txt } :: l)
    else processAnns results rest shown

/-- The citations rendered under the verdict, in display order. -/
def displayedCitations (anns : List MsgAnn) (results : List Chunk) :
    Except CiteError (List CitationRecord) :=
  processAnns results anns []

/-- Marker texts of the `file_citation` annotations, in message order. -/
def fileCitationMarkers (anns : List MsgAnn) : List String :=
  anns.filterMap (fun a => if a.annType = "file_citation" then some a.text else none)

/-- Modelled from the spec: first-seen-order deduplication of a list of
markers, the display-uniqueness policy of spec section 4.2 step 8. -/
def specFirstSeenAux : List String → List String → List String
  | [], _ => []
  | x :: xs, seen =>
    if x ∈ seen then specFirstSeenAux xs seen
    else x :: specFirstSeenAux xs (x :: seen)

/-- Modelled from the spec: deduplicate by marker keeping first occurrences. -/
def specFirstSeen (l : List String) : List String :=
  specFirstSeenAux l []

/-- Scheme validity as `urllib.parse` checks it: nonempty, ASCII-alpha first
character, scheme characters afterwards. -/
def validSchemeStr (s : String) : Bool :=
  match s.toList with
  | [] => false
  | c :: cs => c.isAlpha && cs.all schemeChar

/-- A host string that stays entirely inside the network-location component:
no path, query, fragment or scheme delimiters. -/
def validHostStr (h : String) : Bool :=
  h.toList.all (fun c => !(c == '/' || c == '?' || c == '#' || c == ':'))

deriving instance DecidableEq for Except

theorem prefixMatch_iff (n h : List Char) :
    prefixMatch n h = true ↔ ∃ post, h = n ++ post := by
  induction n generalizing h with
  | nil =>
    simp [prefixMatch]
  | cons a as ih =>
    cases h with
    | nil =>
      simp [prefixMatch]
    | cons b bs =>
      rw [prefixMatch]
      simp only [Bool.and_eq_true, beq_iff_eq, ih, List.cons_append, List.cons.injEq]
      constructor
      · rintro ⟨rfl, post, rfl⟩
        exact ⟨post, rfl, rfl⟩
      · rintro ⟨post, rfl, rfl⟩
        exact ⟨rfl, post, rfl⟩

theorem subList_iff (n h : List Char) :
    subList n h = true ↔ ∃ pre post, h = pre ++ n ++ post := by
  induction h with
  | nil =>
    rw [subList, prefixMatch_iff]
    constructor
    · rintro ⟨post, hp⟩
      exact ⟨[], post, by simpa using hp⟩
    · rintro ⟨pre, post, hp⟩
      have h2 := hp.symm
      simp only [List.append_assoc, List.append_eq_nil] at h2
      exact ⟨post, by simp [h2.1, h2.2]⟩
  | cons c t ih =>
    rw [subList]
    simp only [Bool.or_eq_true, prefixMatch_iff, ih]
    constructor
    · rintro (⟨post, hp⟩ | ⟨pre, post, hp⟩)
      · exact ⟨[], post, by simpa using hp⟩
      · exact ⟨c :: pre, post, by simp [hp]⟩
    · rintro ⟨pre, post, hp⟩
      cases pre with
      | nil =>
        exact Or.inl ⟨post, by simpa using hp⟩
      | cons p ps =>
        rw [List.cons_append, List.cons_append] at hp
        injection hp with h1 h2
        exact Or.inr ⟨ps, post, by simpa using h2⟩

theorem containsSub_iff (hay needle : String) :
    containsSub hay needle = true ↔
      ∃ pre post, hay.toList = pre ++ needle.toList ++ post := by
  unfold containsSub
  exact subList_iff _ _

theorem extract_ok {gh : String → Except Unit RepoData} {url o n : String} {repo : RepoData}
    (h1 : ownerName url = Except.ok (o, n)) (h2 : gh (o ++ "/" ++ n) = Except.ok repo) :
    extract_metadata gh url = Except.ok (metadataOf repo) := by
  unfold extract_metadata
  rw [h1]
  show (match gh (o ++ "/" ++ n) with
    | Except.ok r => Except.ok (metadataOf r)
    | Except.error _ => Except.error ProfileError.repositoryNotFound) = _
  rw [h2]

/-- C1: the profiler sets `biometric_data` true exactly when `"biometric"` is a
substring of the lower-cased README+requirements blob, and `human_in_loop`
true exactly when `"human-in-the-loop"` is a substring — the claimed synonym
token `"face"` and the variant `"human in loop"` are not checked by the code
(lines 77-78).  For the end-to-end README "This uses biometric face data with
no human-in-the-loop review" both flags are true, because the marker string
`human-in-the-loop` does occur in the blob. -/
theorem C1_flags :
    (∀ (gh : String → Except Unit RepoData) (url o n : String) (repo : RepoData),
      ownerName url = Except.ok (o, n) →
      gh (o ++ "/" ++ n) = Except.ok repo →
      ∃ m, extract_metadata gh url = Except.ok m ∧
        (m.biometric_data = true ↔
          ∃ pre post, (blobOf repo).toList = pre ++ "biometric".toList ++ post) ∧
        (m.human_in_loop = true ↔
          ∃ pre post, (blobOf repo).toList = pre ++ "human-in-the-loop".toList ++ post)) ∧
    (extract_metadata
        (fun _ => Except.ok { readme := Except.ok "This uses biometric face data with no human-in-the-loop review" })
        "https://github.com/acme/widget").map
      (fun m => (m.biometric_data, m.human_in_loop)) = Except.ok (true, true) := by
  constructor
  · intro gh url o n repo h1 h2
    refine ⟨metadataOf repo, extract_ok h1 h2, ?_, ?_⟩
    · exact containsSub_iff (blobOf repo) "biometric"
    · exact containsSub_iff (blobOf repo) "human-in-the-loop"
  · decide

/-- C1 witness: a concrete run of the amended statement on a README reading
"face" with owner `acme`, name `widget`. -/
theorem C1_witness :
    ∃ m, extract_metadata (fun _ => Except.ok ({ readme := Except.ok "face" } : RepoData))
        "https://github.com/acme/widget" = Except.ok m ∧
      (m.biometric_data = true ↔
        ∃ pre post,
          (blobOf { readme := Except.ok "face" }).toList = pre ++ "biometric".toList ++ post) ∧
      (m.human_in_loop = true ↔
        ∃ pre post,
          (blobOf { readme := Except.ok "face" }).toList = pre ++ "human-in-the-loop".toList ++ post) :=
  C1_flags.1 _ "https://github.com/acme/widget" "acme" "widget" _ (by decide) rfl

/-- C1 counterexample: on the claim's own end-to-end README the code sets
`human_in_loop = true` where the claim requires `humanOversightFlag = false`;
and a README consisting only of the synonym token "face" yields
`biometric_data = false` although "face" is a substring of the blob, refuting
the claimed iff. -/
theorem C1_counterexample :
    (extract_metadata
        (fun _ => Except.ok { readme := Except.ok "This uses biometric face data with no human-in-the-loop review" })
        "https://github.com/acme/widget").map Metadata.human_in_loop = Except.ok true ∧
    (extract_metadata (fun _ => Except.ok { readme := Except.ok "face recognition" })
        "https://github.com/acme/widget").map Metadata.biometric_data = Except.ok false ∧
    containsSub (blobOf { readme := Except.ok "face recognition" }) "face" = true := by
  refine ⟨?_, ?_, ?_⟩ <;> decide

/-- C2: `tags` (the spec's `domainTags`) is the vocabulary-ordered,
duplicate-free list of exactly those vocabulary terms occurring as substrings
of the blob — but the vocabulary of line 74 has four terms, without the
claimed fifth term "credit". -/
theorem C2_domainTags :
    ∀ (gh : String → Except Unit RepoData) (url o n : String) (repo : RepoData),
      ownerName url = Except.ok (o, n) →
      gh (o ++ "/" ++ n) = Except.ok repo →
      ∃ m, extract_metadata gh url = Except.ok m ∧
        (∀ t, t ∈ m.tags ↔
          t ∈ keywordVocab ∧ ∃ pre post, (blobOf repo).toList = pre ++ t.toList ++ post) ∧
        m.tags.Nodup ∧
        m.tags.Sublist keywordVocab := by
  intro gh url o n repo h1 h2
  refine ⟨metadataOf repo, extract_ok h1 h2, ?_, ?_, ?_⟩
  · intro t
    show t ∈ tagsOf (blobOf repo) ↔ _
    rw [tagsOf, List.mem_filter]
    simp only [containsSub_iff]
  · show (tagsOf (blobOf repo)).Nodup
    exact (show keywordVocab.Nodup by decide).filter _
  · show (tagsOf (blobOf repo)).Sublist keywordVocab
    exact List.filter_sublist _

/-- C2 witness: a concrete run where the blob mentions surveillance then
finance; the tags come back in vocabulary order. -/
theorem C2_witness :
    ∃ m, extract_metadata
        (fun _ => Except.ok ({ readme := Except.ok "surveillance of finance" } : RepoData))
        "https://github.com/acme/widget" = Except.ok m ∧
      (∀ t, t ∈ m.tags ↔
        t ∈ keywordVocab ∧
          ∃ pre post,
            (blobOf { readme := Except.ok "surveillance of finance" }).toList =
              pre ++ t.toList ++ post) ∧
      m.tags.Nodup ∧
      m.tags.Sublist keywordVocab :=
  C2_domainTags _ "https://github.com/acme/widget" "acme" "widget" _ (by decide) rfl

theorem processAnns_cons_not_fc (results : List Chunk) (a : MsgAnn) (rest : List MsgAnn)
    (shown : List String) (hfc : ¬(a.annType = "file_citation")) :
    processAnns results (a :: rest) shown = processAnns results rest shown := by
  simp only [processAnns]
  rw [if_neg hfc]

theorem processAnns_cons_parse_fail (results : List Chunk) (a : MsgAnn) (rest : List MsgAnn)
    (shown : List String) (hfc : a.annType = "file_citation")
    (hp : parseMarker a.text = none) :
    processAnns results (a :: rest) shown = Except.error CiteError.markerParse := by
  simp only [processAnns, hp]
  rw [if_pos hfc]

theorem processAnns_cons_idx_fail (results : List Chunk) (a : MsgAnn) (rest : List MsgAnn)
    (shown : List String) (k : Nat) (hfc : a.annType = "file_citation")
    (hp : parseMarker a.text = some k) (hg : results[k]? = none) :
    processAnns results (a :: rest) shown = Except.error CiteError.indexRange := by
  simp only [processAnns, hp, hg]
  rw [if_pos hfc]

theorem processAnns_cons_content_fail (results : List Chunk) (a : MsgAnn) (rest : List MsgAnn)
    (shown : List String) (k : Nat) (c : Chunk) (hfc : a.annType = "file_citation")
    (hp : parseMarker a.text = some k) (hg : results[k]? = some c)
    (hh : c.content.head? = none) :
    processAnns results (a :: rest) shown = Except.error CiteError.emptyContent := by
  simp only [processAnns, hp, hg, hh]
  rw [if_pos hfc]

theorem processAnns_cons_fc (results : List Chunk) (a : MsgAnn) (rest : List MsgAnn)
    (shown : List String) (k : Nat) (c : Chunk) (txt : String)
    (hfc : a.annType = "file_citation") (hp : parseMarker a.text = some k)
    (hg : results[k]? = some c) (hh : c.content.head? = some txt) :
    processAnns results (a :: rest) shown =
      if a.text ∈ shown then processAnns results rest shown
      else
        (processAnns results rest (a.text :: shown)).map
          (fun l => { marker := a.text, evidenceText := txt } :: l) := by
  simp only [processAnns, hp, hg, hh]
  rw [if_pos hfc]

theorem processAnns_sound (results : List Chunk) :
    ∀ (anns : List MsgAnn) (shown : List String) (l : List CitationRecord),
      processAnns results anns shown = Except.ok l →
      ∀ a ∈ anns, a.annType = "file_citation" →
        ∃ k c, parseMarker a.text = some k ∧ results[k]? = some c ∧ c.content ≠ [] := by
  intro anns
  induction anns with
  | nil =>
    intro shown l _ a ha
    simp at ha
  | cons a0 rest ih =>
    intro shown l h a ha hfc
    rcases List.mem_cons.mp ha with rfl | hmem
    · cases hp : parseMarker a.text with
      | none =>
        rw [processAnns_cons_parse_fail results a rest shown hfc hp] at h
        simp at h
      | some k =>
        cases hg : results[k]? with
        | none =>
          rw [processAnns_cons_idx_fail results a rest shown k hfc hp hg] at h
          simp at h
        | some c =>
          cases hh : c.content.head? with
          | none =>
            rw [processAnns_cons_content_fail results a rest shown k c hfc hp hg hh] at h
            simp at h
          | some txt =>
            refine ⟨k, c, rfl, hg, ?_⟩
            intro hnil
            rw [hnil] at hh
            simp at hh
    · by_cases hfc0 : a0.annType = "file_citation"
      · cases hp : parseMarker a0.text with
        | none =>
          rw [processAnns_cons_parse_fail results a0 rest shown hfc0 hp] at h
          simp at h
        | some k =>
          cases hg : results[k]? with
          | none =>
            rw [processAnns_cons_idx_fail results a0 rest shown k hfc0 hp hg] at h
            simp at h
          | some c =>
            cases hh : c.content.head? with
            | none =>
              rw [processAnns_cons_content_fail results a0 rest shown k c hfc0 hp hg hh] at h
              simp at h
            | some txt =>
              rw [processAnns_cons_fc results a0 rest shown k c txt hfc0 hp hg hh] at h
              by_cases hs : a0.text ∈ shown
              · rw [if_pos hs] at h
                exact ih shown l h a hmem hfc
              · rw [if_neg hs] at h
                cases e : processAnns results rest (a0.text :: shown) with
                | error err =>
                  rw [e] at h
                  simp [Except.map] at h
                | ok l' =>
                  exact ih _ l' e a hmem hfc
      · rw [processAnns_cons_not_fc results a0 rest shown hfc0] at h
        exact ih shown l h a hmem hfc

theorem processAnns_complete (results : List Chunk) :
    ∀ (anns : List MsgAnn) (shown : List String),
      (∀ a ∈ anns, a.annType = "file_citation" →
        ∃ k c, parseMarker a.text = some k ∧ results[k]? = some c ∧ c.content ≠ []) →
      ∃ l, processAnns results anns shown = Except.ok l ∧
        ∀ r ∈ l, ∃ a, a ∈ anns ∧ a.annType = "file_citation" ∧ r.marker = a.text ∧
          ∃ k c, parseMarker a.text = some k ∧ results[k]? = some c ∧
            c.content.head? = some r.evidenceText := by
  intro anns
  induction anns with
  | nil =>
    intro shown _
    exact ⟨[], rfl, by simp⟩
  | cons a0 rest ih =>
    intro shown h
    have hrest := fun a ha => h a (List.mem_cons_of_mem _ ha)
    by_cases hfc : a0.annType = "file_citation"
    · obtain ⟨k, c, hp, hg, hcne⟩ := h a0 (List.mem_cons_self _ _) hfc
      obtain ⟨txt, hh⟩ : ∃ txt, c.content.head? = some txt := by
        cases hc : c.content with
        | nil => exact absurd hc hcne
        | cons t ts => exact ⟨t, by simp [hc]⟩
      rw [processAnns_cons_fc results a0 rest shown k c txt hfc hp hg hh]
      by_cases hs : a0.text ∈ shown
      · rw [if_pos hs]
        obtain ⟨l, hl, hprov⟩ := ih shown hrest
        refine ⟨l, hl, ?_⟩
        intro r hr
        obtain ⟨a, ha, h3⟩ := hprov r hr
        exact ⟨a, List.mem_cons_of_mem _ ha, h3⟩
      · rw [if_neg hs]
        obtain ⟨l, hl, hprov⟩ := ih (a0.text :: shown) hrest
        rw [hl]
        refine ⟨_, rfl, ?_⟩
        intro r hr
        rcases List.mem_cons.mp hr with rfl | hrl
        · exact ⟨a0, List.mem_cons_self _ _, hfc, rfl, k, c, hp, hg, hh⟩
        · obtain ⟨a, ha, h3⟩ := hprov r hrl
          exact ⟨a, List.mem_cons_of_mem _ ha, h3⟩
    · rw [processAnns_cons_not_fc results a0 rest shown hfc]
      obtain ⟨l, hl, hprov⟩ := ih shown hrest
      refine ⟨l, hl, ?_⟩
      intro r hr
      obtain ⟨a, ha, h3⟩ := hprov r hr
      exact ⟨a, List.mem_cons_of_mem _ ha, h3⟩

theorem processAnns_markers (results : List Chunk) :
    ∀ (anns : List MsgAnn) (shown : List String) (l : List CitationRecord),
      processAnns results anns shown = Except.ok l →
      l.map CitationRecord.marker = specFirstSeenAux (fileCitationMarkers anns) shown := by
  intro anns
  induction anns with
  | nil =>
    intro shown l h
    simp [processAnns] at h
    simp [← h, fileCitationMarkers, specFirstSeenAux]
  | cons a0 rest ih =>
    intro shown l h
    by_cases hfc : a0.annType = "file_citation"
    · have hfcm : fileCitationMarkers (a0 :: rest) = a0.text :: fileCitationMarkers rest := by
        simp [fileCitationMarkers, hfc]
      cases hp : parseMarker a0.text with
      | none =>
        rw [processAnns_cons_parse_fail results a0 rest shown hfc hp] at h
        simp at h
      | some k =>
        cases hg : results[k]? with
        | none =>
          rw [processAnns_cons_idx_fail results a0 rest shown k hfc hp hg] at h
          simp at h
        | some c =>
          cases hh : c.content.head? with
          | none =>
            rw [processAnns_cons_content_fail results a0 rest shown k c hfc hp hg hh] at h
            simp at h
          | some txt =>
            rw [processAnns_cons_fc results a0 rest shown k c txt hfc hp hg hh] at h
            rw [hfcm]
            show l.map CitationRecord.marker =
              if a0.text ∈ shown then
                specFirstSeenAux (fileCitationMarkers rest) shown
              else a0.text :: specFirstSeenAux (fileCitationMarkers rest) (a0.text :: shown)
            by_cases hs : a0.text ∈ shown
            · rw [if_pos hs] at h ⊢
              exact ih shown l h
            · rw [if_neg hs] at h ⊢
              cases e : processAnns results rest (a0.text :: shown) with
              | error err =>
                rw [e] at h
                simp [Except.map] at h
              | ok l' =>
                rw [e] at h
                have hl : l = { marker := a0.text, evidenceText := txt } :: l' := by
                  simpa [Except.map] using h.symm
                subst hl
                simp only [List.map_cons]
                exact congrArg (a0.text :: ·) (ih (a0.text :: shown) l' e)
    · have hfcm : fileCitationMarkers (a0 :: rest) = fileCitationMarkers rest := by
        simp [fileCitationMarkers, hfc]
      rw [processAnns_cons_not_fc results a0 rest shown hfc] at h
      rw [hfcm]
      exact ih shown l h

theorem specFirstSeenAux_props :
    ∀ (xs seen : List String),
      (specFirstSeenAux xs seen).Nodup ∧ ∀ y ∈ specFirstSeenAux xs seen, y ∉ seen := by
  intro xs
  induction xs with
  | nil =>
    intro seen
    exact ⟨List.nodup_nil, by simp [specFirstSeenAux]⟩
  | cons x xs ih =>
    intro seen
    by_cases hs : x ∈ seen
    · constructor
      · rw [specFirstSeenAux, if_pos hs]
        exact (ih seen).1
      · intro y hy
        rw [specFirstSeenAux, if_pos hs] at hy
        exact (ih seen).2 y hy
    · have hrec := ih (x :: seen)
      constructor
      · rw [specFirstSeenAux, if_neg hs]
        refine List.nodup_cons.mpr ⟨?_, hrec.1⟩
        intro hxmem
        exact hrec.2 x hxmem (List.mem_cons_self _ _)
      · intro y hy
        rw [specFirstSeenAux, if_neg hs] at hy
        rcases List.mem_cons.mp hy with rfl | hy'
        · exact hs
        · intro hymem
          exact hrec.2 y hy' (List.mem_cons_of_mem _ hymem)

/-- C3 (amended): the annotation loop does not skip malformed or out-of-range
markers — it raises on the first bad `file_citation` annotation.  Part one:
when every `file_citation` annotation parses, is in range and has nonempty
chunk content, extraction succeeds, and every displayed record is built from
the chunk the annotation's parsed index selects.  Part two: a successful
extraction forces every `file_citation` annotation to be well-formed and
in range. -/
theorem C3_extraction :
    (∀ (anns : List MsgAnn) (results : List Chunk),
      (∀ a ∈ anns, a.annType = "file_citation" →
        ∃ k c, parseMarker a.text = some k ∧ results[k]? = some c ∧ c.content ≠ []) →
      ∃ l, displayedCitations anns results = Except.ok l ∧
        ∀ r ∈ l, ∃ a, a ∈ anns ∧ a.annType = "file_citation" ∧ r.marker = a.text ∧
          ∃ k c, parseMarker a.text = some k ∧ results[k]? = some c ∧
            c.content.head? = some r.evidenceText) ∧
    (∀ (anns : List MsgAnn) (results : List Chunk) (l : List CitationRecord),
      displayedCitations anns results = Except.ok l →
      ∀ a ∈ anns, a.annType = "file_citation" →
        ∃ k c, parseMarker a.text = some k ∧ results[k]? = some c ∧ c.content ≠ []) :=
  ⟨fun anns results h => processAnns_complete results anns [] h,
   fun anns results l h => processAnns_sound results anns [] l h⟩

/-- C3 witness: one well-formed citation annotation next to a non-citation
annotation; extraction succeeds and the record is backed by chunk 0. -/
theorem C3_witness :
    ∃ l, displayedCitations
        [⟨"file_citation", "【0:0†source】"⟩, ⟨"file_path", "ignored"⟩]
        [⟨["alpha"]⟩] = Except.ok l ∧
      ∀ r ∈ l, ∃ a, a ∈ ([⟨"file_citation", "【0:0†source】"⟩, ⟨"file_path", "ignored"⟩] : List MsgAnn) ∧
        a.annType = "file_citation" ∧ r.marker = a.text ∧
        ∃ k c, parseMarker a.text = some k ∧ ([⟨["alpha"]⟩] : List Chunk)[k]? = some c ∧
          c.content.head? = some r.evidenceText :=
  C3_extraction.1 _ _ (by
    intro a ha hfc
    rcases List.mem_cons.mp ha with rfl | ha2
    · exact ⟨0, ⟨["alpha"]⟩, by decide, rfl, by decide⟩
    · rcases List.mem_cons.mp ha2 with rfl | ha3
      · simp at hfc
      · simp at ha3)

/-- C3 counterexample: a `file_citation` annotation whose marker does not
match the pattern makes the loop raise (the `AttributeError` of line 208),
and an annotation whose parsed index is past the chunk list makes it raise
(the `IndexError` of line 209) — neither is skipped, so on these inputs the
claimed error-free skipping (which would display no citation and raise
nothing) is false. -/
theorem C3_counterexample :
    displayedCitations [⟨"file_citation", "bogus"⟩] [] = Except.error CiteError.markerParse ∧
    displayedCitations [⟨"file_citation", "【0:5†source】"⟩] [⟨["alpha"]⟩] =
      Except.error CiteError.indexRange := by
  refine ⟨?_, ?_⟩ <;> decide

/-- C9: whenever the annotation loop completes, the displayed citation records
carry pairwise-distinct markers, and their marker sequence is exactly the
first-seen-order deduplication of the `file_citation` markers of the
(unmodified) annotation list. -/
theorem C9_dedup :
    ∀ (anns : List MsgAnn) (results : List Chunk) (l : List CitationRecord),
      displayedCitations anns results = Except.ok l →
      l.map CitationRecord.marker = specFirstSeen (fileCitationMarkers anns) ∧
        (l.map CitationRecord.marker).Nodup := by
  intro anns results l h
  have hm := processAnns_markers results anns [] l h
  refine ⟨hm, ?_⟩
  rw [hm]
  exact (specFirstSeenAux_props (fileCitationMarkers anns) []).1

/-- C9 witness: two annotations share the marker `【0:0†source】`; the display
list keeps one record per distinct marker, in first-seen order. -/
theorem C9_witness :
    ([⟨"【0:0†source】", "alpha"⟩, ⟨"【0:1†source】", "beta"⟩] : List CitationRecord).map
        CitationRecord.marker =
      specFirstSeen (fileCitationMarkers
        [⟨"file_citation", "【0:0†source】"⟩, ⟨"file_citation", "【0:0†source】"⟩,
         ⟨"file_citation", "【0:1†source】"⟩]) ∧
    (([⟨"【0:0†source】", "alpha"⟩, ⟨"【0:1†source】", "beta"⟩] : List CitationRecord).map
        CitationRecord.marker).Nodup :=
  C9_dedup
    [⟨"file_citation", "【0:0†source】"⟩, ⟨"file_citation", "【0:0†source】"⟩,
     ⟨"file_citation", "【0:1†source】"⟩]
    [⟨["alpha"]⟩, ⟨["beta"]⟩]
    [⟨"【0:0†source】", "alpha"⟩, ⟨"【0:1†source】", "beta"⟩]
    (by decide)

/-- C2 counterexample: "credit" belongs to the claim's five-term vocabulary and
is a substring of the blob built from the README "credit card scoring", yet
the computed tags are empty — the code's vocabulary has no "credit". -/
theorem C2_counterexample :
    (extract_metadata (fun _ => Except.ok { readme := Except.ok "credit card scoring" })
        "https://github.com/acme/widget").map Metadata.tags = Except.ok [] ∧
    containsSub (blobOf { readme := Except.ok "credit card scoring" }) "credit" = true := by
  refine ⟨?_, ?_⟩ <;> decide

theorem strMk_toList (s : String) : String.mk s.toList = s := by
  cases s
  rfl

theorem toList_append (x y : String) : (x ++ y).toList = x.toList ++ y.toList :=
  String.data_append x y

theorem pySplitlinesGo_append_newline :
    ∀ (cs rest acc : List Char), (∀ ch ∈ cs, ch ≠ '\n' ∧ ch ≠ '\r') →
      pySplitlinesGo false (cs ++ '\n' :: rest) acc =
        String.mk (acc.reverse ++ cs) :: pySplitlinesGo false rest [] := by
  intro cs
  induction cs with
  | nil =>
    intro rest acc _
    show pySplitlinesGo false ('\n' :: rest) acc = _
    simp [pySplitlinesGo]
  | cons c cs ih =>
    intro rest acc h
    have hc := h c (List.mem_cons_self _ _)
    have hcs := fun ch hch => h ch (List.mem_cons_of_mem _ hch)
    show pySplitlinesGo false (c :: (cs ++ '\n' :: rest)) acc = _
    simp only [pySplitlinesGo]
    rw [if_neg (by simp [hc.1]), if_neg hc.1, if_neg hc.2]
    rw [ih rest (c :: acc) hcs]
    simp

theorem pySplitlinesGo_no_newline :
    ∀ (cs acc : List Char), (∀ ch ∈ cs, ch ≠ '\n' ∧ ch ≠ '\r') → (cs ≠ [] ∨ acc ≠ []) →
      pySplitlinesGo false cs acc = [String.mk (acc.reverse ++ cs)] := by
  intro cs
  induction cs with
  | nil =>
    intro acc _ hne
    have hacc : acc ≠ [] := by
      rcases hne with h | h
      · exact absurd rfl h
      · exact h
    simp only [pySplitlinesGo]
    rw [if_neg hacc]
    simp
  | cons c cs ih =>
    intro acc h _
    have hc := h c (List.mem_cons_self _ _)
    have hcs := fun ch hch => h ch (List.mem_cons_of_mem _ hch)
    simp only [pySplitlinesGo]
    rw [if_neg (by simp [hc.1]), if_neg hc.1, if_neg hc.2]
    rw [ih (c :: acc) hcs (Or.inr (by simp))]
    simp

theorem pySplitlines_join :
    ∀ lines : List String, (∀ l ∈ lines, ∀ ch ∈ l.toList, ch ≠ '\n' ∧ ch ≠ '\r') →
      lines.getLast? ≠ some "" →
      pySplitlines (pyJoin "\n" lines) = lines := by
  intro lines
  induction lines with
  | nil =>
    intro _ _
    rfl
  | cons l rest ih =>
    intro h hlast
    cases rest with
    | nil =>
      have hl : l ≠ "" := by
        intro he
        exact hlast (by simp [he])
      have hlne : l.toList ≠ [] := by
        intro hnil
        refine hl ?_
        have h2 := congrArg String.mk hnil
        rwa [strMk_toList] at h2
      show pySplitlines (pyJoin "\n" [l]) = [l]
      have hj : pyJoin "\n" [l] = l := rfl
      rw [hj]
      unfold pySplitlines
      rw [pySplitlinesGo_no_newline l.toList []
        (fun ch hch => h l (List.mem_cons_self _ _) ch hch) (Or.inl hlne)]
      simp [strMk_toList]
    | cons l2 rest2 =>
      have hTL : (pyJoin "\n" (l :: l2 :: rest2)).toList =
          l.toList ++ '\n' :: (pyJoin "\n" (l2 :: rest2)).toList := by
        show (l ++ "\n" ++ pyJoin "\n" (l2 :: rest2)).toList = _
        rw [toList_append, toList_append]
        rw [show ("\n" : String).toList = ['\n'] from rfl]
        simp
      unfold pySplitlines
      rw [hTL]
      rw [pySplitlinesGo_append_newline l.toList (pyJoin "\n" (l2 :: rest2)).toList []
        (fun ch hch => h l (List.mem_cons_self _ _) ch hch)]
      have hrest : pySplitlinesGo false (pyJoin "\n" (l2 :: rest2)).toList [] = l2 :: rest2 := by
        have hih := ih (fun l' hl' => h l' (List.mem_cons_of_mem _ hl'))
          (by rw [List.getLast?_cons_cons] at hlast; exact hlast)
        exact hih
      rw [hrest]
      simp [strMk_toList]

/-- C4 (amended): the `requirements` sequence is exactly the manifest's lines
as `splitlines` produces them, in order — blank lines and lines starting with
a comment marker are NOT excluded (line 53 of the source applies no filter).
The second part states the order/content preservation concretely: any list of
terminator-free lines (whose last line is nonempty) joined with newlines comes
back verbatim, comments and blanks included. -/
theorem C4_dependencies :
    (∀ (gh : String → Except Unit RepoData) (url o n : String) (repo : RepoData)
        (manifest : String),
      ownerName url = Except.ok (o, n) →
      gh (o ++ "/" ++ n) = Except.ok repo →
      repo.requirementsTxt = Except.ok manifest →
      ∃ m, extract_metadata gh url = Except.ok m ∧ m.requirements = pySplitlines manifest) ∧
    (∀ lines : List String, (∀ l ∈ lines, ∀ ch ∈ l.toList, ch ≠ '\n' ∧ ch ≠ '\r') →
      lines.getLast? ≠ some "" →
      pySplitlines (pyJoin "\n" lines) = lines) := by
  constructor
  · intro gh url o n repo manifest h1 h2 hreq
    refine ⟨metadataOf repo, extract_ok h1 h2, ?_⟩
    show reqsOf repo = pySplitlines manifest
    simp [reqsOf, hreq]
  · exact pySplitlines_join

/-- C4 witness: a concrete manifest holding a comment line, a blank line and a
package line survives the pipeline unchanged. -/
theorem C4_witness :
    ∃ m, extract_metadata
        (fun _ => Except.ok ({ requirementsTxt := Except.ok "# comment\n\nnumpy" } : RepoData))
        "https://github.com/acme/widget" = Except.ok m ∧
      m.requirements = pySplitlines "# comment\n\nnumpy" :=
  C4_dependencies.1 _ _ "acme" "widget" _ "# comment\n\nnumpy" (by decide) rfl rfl

/-- C4 counterexample: for the manifest `"# comment\n\nnumpy"` the claim
requires `dependencies = ["numpy"]` (comment and blank excluded), but the
code returns all three lines. -/
theorem C4_counterexample :
    (extract_metadata
        (fun _ => Except.ok { requirementsTxt := Except.ok "# comment\n\nnumpy" })
        "https://github.com/acme/widget").map Metadata.requirements =
      Except.ok ["# comment", "", "numpy"] := by
  decide

/-- C5: once the top-level lookup has succeeded, `extract_metadata` always
returns a record — a README fetch error degrades to the empty string, a
manifest fetch error to the empty sequence, a missing CI config directory to
`has_ci = false`, and a missing license to the `"NONE"` sentinel. -/
theorem C5_fault_tolerance :
    ∀ (gh : String → Except Unit RepoData) (url o n : String) (repo : RepoData),
      ownerName url = Except.ok (o, n) →
      gh (o ++ "/" ++ n) = Except.ok repo →
      ∃ m, extract_metadata gh url = Except.ok m ∧
        (repo.readme = Except.error () → m.readme_summary = "") ∧
        (repo.requirementsTxt = Except.error () → m.requirements = []) ∧
        (repo.workflows = Except.error () → m.has_ci = false) ∧
        (repo.license = none → m.license = "NONE") := by
  intro gh url o n repo h1 h2
  refine ⟨metadataOf repo, extract_ok h1 h2, ?_, ?_, ?_, ?_⟩
  · intro hr
    show readmeSummaryOf (readmeOf repo) = ""
    simp [readmeOf, hr, readmeSummaryOf]
  · intro hr
    show reqsOf repo = []
    simp [reqsOf, hr]
  · intro hr
    show hasCiOf repo = false
    simp [hasCiOf, hr]
  · intro hr
    show licenseOf repo = "NONE"
    simp [licenseOf, hr]

/-- C5 witness: a repository where every auxiliary fetch fails and no license
is declared still profiles successfully, with all the safe defaults. -/
theorem C5_witness :
    ∃ m, extract_metadata (fun _ => Except.ok ({} : RepoData))
        "https://github.com/acme/widget" = Except.ok m ∧
      (({} : RepoData).readme = Except.error () → m.readme_summary = "") ∧
      (({} : RepoData).requirementsTxt = Except.error () → m.requirements = []) ∧
      (({} : RepoData).workflows = Except.error () → m.has_ci = false) ∧
      (({} : RepoData).license = none → m.license = "NONE") :=
  C5_fault_tolerance _ _ "acme" "widget" _ (by decide) rfl

/-- C6: when the parsed, slash-stripped URL path splits into fewer than two
segments, `extract_metadata` fails with `InvalidRepositoryReference` (the
unpack `ValueError` of line 43), before the lookup function is ever
consulted; the error is returned to the caller as is — the code has no retry
path. -/
theorem C6_invalid_reference :
    ∀ (gh : String → Except Unit RepoData) (url : String),
      (pathParts url).length < 2 →
      extract_metadata gh url = Except.error ProfileError.invalidRepositoryReference := by
  intro gh url h
  have hor : ownerName url = Except.error ProfileError.invalidRepositoryReference := by
    cases hp : pathParts url with
    | nil =>
      unfold ownerName
      rw [hp]
    | cons a t =>
      cases t with
      | nil =>
        unfold ownerName
        rw [hp]
      | cons b t2 =>
        rw [hp] at h
        simp at h
        exact absurd h (by omega)
  unfold extract_metadata
  rw [hor]
  rfl

/-- C6 witness: a URL whose path has a single segment fails with the invalid
reference error, for an arbitrary lookup function. -/
theorem C6_witness :
    extract_metadata (fun _ => Except.error ()) "https://github.com/onlyowner" =
      Except.error ProfileError.invalidRepositoryReference :=
  C6_invalid_reference _ _ (by decide)

theorem splitOnFirst_append (sep : Char) :
    ∀ (l r : List Char), (∀ c ∈ l, ¬(c = sep)) →
      splitOnFirst sep (l ++ sep :: r) = some (l, r) := by
  intro l
  induction l with
  | nil =>
    intro r _
    show splitOnFirst sep (sep :: r) = _
    simp [splitOnFirst]
  | cons c cs ih =>
    intro r h
    have hc := h c (List.mem_cons_self _ _)
    show splitOnFirst sep (c :: (cs ++ sep :: r)) = _
    simp only [splitOnFirst]
    rw [if_neg (by simp [hc])]
    rw [ih r (fun c2 hc2 => h c2 (List.mem_cons_of_mem _ hc2))]
    rfl

theorem dropWhile_all_append (p : Char → Bool) :
    ∀ (l r : List Char), (∀ c ∈ l, p c = true) →
      List.dropWhile p (l ++ r) = List.dropWhile p r := by
  intro l
  induction l with
  | nil =>
    intro r _
    rfl
  | cons c cs ih =>
    intro r h
    show List.dropWhile p (c :: (cs ++ r)) = _
    simp only [List.dropWhile, h c (List.mem_cons_self _ _)]
    exact ih r (fun c2 hc2 => h c2 (List.mem_cons_of_mem _ hc2))

theorem scheme_no_colon (s : String) (hs : validSchemeStr s = true) :
    ∀ c ∈ s.toList, ¬(c = ':') := by
  unfold validSchemeStr at hs
  cases hsl : s.toList with
  | nil =>
    intro c hc
    simp at hc
  | cons c0 cs0 =>
    rw [hsl] at hs
    have hs2 : (c0.isAlpha && cs0.all schemeChar) = true := hs
    simp only [Bool.and_eq_true] at hs2
    intro c hc hceq
    subst hceq
    rcases List.mem_cons.mp hc with heq | hmem
    · rw [← heq] at hs2
      exact absurd hs2.1 (by decide)
    · have h2 := List.all_eq_true.mp hs2.2 ':' hmem
      exact absurd h2 (by decide)

theorem dropScheme_valid (s : String) (tail : List Char) (hs : validSchemeStr s = true) :
    dropScheme (s.toList ++ ':' :: tail) = tail := by
  unfold dropScheme
  rw [splitOnFirst_append ':' s.toList tail (scheme_no_colon s hs)]
  unfold validSchemeStr at hs
  cases hsl : s.toList with
  | nil =>
    rw [hsl] at hs
    exact absurd hs (by decide)
  | cons c0 cs0 =>
    rw [hsl] at hs
    have hs2 : (c0.isAlpha && cs0.all schemeChar) = true := hs
    simp [hs2]

theorem host_no_delim (ho : String) (hh : validHostStr ho = true) :
    ∀ c ∈ ho.toList, (!(c == '/' || c == '?' || c == '#')) = true := by
  unfold validHostStr at hh
  intro c hc
  have h2 := List.all_eq_true.mp hh c hc
  simp at h2 ⊢
  tauto

theorem dropNetloc_host (hoL tail : List Char)
    (hh : ∀ c ∈ hoL, (!(c == '/' || c == '?' || c == '#')) = true) :
    dropNetloc ('/' :: '/' :: (hoL ++ '/' :: tail)) = '/' :: tail := by
  show List.dropWhile _ (hoL ++ '/' :: tail) = _
  rw [dropWhile_all_append _ hoL ('/' :: tail) hh]
  simp [List.dropWhile]

theorem urlparsePath_scheme_host (s ho rest : String)
    (hs : validSchemeStr s = true) (hh : validHostStr ho = true) :
    urlparsePath (s ++ "://" ++ ho ++ "/" ++ rest) =
      String.mk (splitParamsPath (cutAtChar '?' (cutAtChar '#' ('/' :: rest.toList)))) := by
  unfold urlparsePath
  have htl : (s ++ "://" ++ ho ++ "/" ++ rest).toList =
      s.toList ++ ':' :: ('/' :: '/' :: (ho.toList ++ '/' :: rest.toList)) := by
    simp only [toList_append]
    rw [show ("://" : String).toList = [':', '/', '/'] from rfl,
        show ("/" : String).toList = ['/'] from rfl]
    simp [List.append_assoc]
  rw [htl, dropScheme_valid s _ hs, dropNetloc_host ho.toList rest.toList (host_no_delim ho hh)]

theorem ownerName_take (u : String) :
    ownerName u = match (pathParts u).take 2 with
      | a :: b :: _ => Except.ok (a, b)
      | _ => Except.error ProfileError.invalidRepositoryReference := by
  unfold ownerName
  cases hp : pathParts u with
  | nil => rfl
  | cons a t =>
    cases t with
    | nil => rfl
    | cons b t2 => rfl

/-- C7: the languages part of the document sent to the assessment service
renders the raw byte counts of the histogram followed by a percent sign —
for the histogram `[(A, 3), (B, 1)]` it prints `A (3%), B (1%)`, not the
byte-share percentages `A (75%), B (25%)` the claim requires (the generator
at line 166 iterates `metadata['languages'].items()`, whose values are byte
counts; the true percentages are computed only for the bar chart at
line 120). -/
theorem C7_languages_render :
    languagesLine [("A", 3), ("B", 1)] = "A (3%), B (1%)" ∧
    languagesLine [("A", 3), ("B", 1)] ≠ "A (75%), B (25%)" := by
  refine ⟨?_, ?_⟩ <;> decide

/-- C8: the run-status handling after `create_and_poll` (lines 188-190) knows
a single failure shape: every status other than `"completed"` is reported
through the one generic error carrying the raw status string — there is no
distinct timeout error anywhere in this code, and the poll call itself is
made with no bound. -/
theorem C8_status_handling :
    ∀ status : String, status ≠ "completed" →
      handleRunStatus status = Except.error (RunFailure.serviceError status) := by
  intro s hs
  unfold handleRunStatus
  rw [if_neg hs]

/-- C8 witness: a run ending in status `"failed"` produces the generic
service error carrying `"failed"`. -/
theorem C8_witness :
    handleRunStatus "failed" = Except.error (RunFailure.serviceError "failed") :=
  C8_status_handling "failed" (by decide)

/-- C10: owner/name extraction depends only on the first two segments of the
parsed URL path.  Part one: any two URLs whose stripped paths agree on their
first two split segments resolve identically.  Part two: the scheme and the
host are never consulted — for any two well-formed schemes and any two hosts
free of delimiter characters, URLs sharing the same path remainder resolve to
the same owner/name result. -/
theorem C10_path_only :
    (∀ u1 u2 : String, (pathParts u1).take 2 = (pathParts u2).take 2 →
      ownerName u1 = ownerName u2) ∧
    (∀ s1 s2 ha hb rest : String,
      validSchemeStr s1 = true → validSchemeStr s2 = true →
      validHostStr ha = true → validHostStr hb = true →
      ownerName (s1 ++ "://" ++ ha ++ "/" ++ rest) =
        ownerName (s2 ++ "://" ++ hb ++ "/" ++ rest)) := by
  constructor
  · intro u1 u2 h
    rw [ownerName_take u1, ownerName_take u2, h]
  · intro s1 s2 ha hb rest hs1 hs2 hha hhb
    unfold ownerName pathParts strippedPath
    rw [urlparsePath_scheme_host s1 ha rest hs1 hha,
        urlparsePath_scheme_host s2 hb rest hs2 hhb]

/-- C10 witness: the same owner/name pair comes out for different schemes and
hosts, and for paths agreeing on their first two segments. -/
theorem C10_witness :
    ownerName "https://github.com/acme/widget/tree/main" =
      ownerName "https://github.com/acme/widget" ∧
    ownerName ("https" ++ "://" ++ "github.com" ++ "/" ++ "acme/widget") =
      ownerName ("http" ++ "://" ++ "gitlab.example.org" ++ "/" ++ "acme/widget") :=
  ⟨C10_path_only.1 _ _ (by decide),
   C10_path_only.2 "https" "http" "github.com" "gitlab.example.org" "acme/widget"
     (by decide) (by decide) (by decide) (by decide)⟩
